import Mathlib

/-!
Verification of the waldur-slurm-service reconciliation engine against its
natural-language specification.  The Python sources are shallowly embedded:
pure computations become Lean functions, stateful call sequences become
explicit traces of `Call` values, and Python exceptions become `Except`
results.  Definitions follow the source files
(`waldur_site_agent/processors.py`, `waldur_site_agent/agent_order_process.py`,
`waldur_site_agent/agent_report.py`,
`waldur_site_agent/backends/slurm_backend/backend.py`,
`waldur_site_agent/backends/slurm_backend/client.py`); the few helpers whose
defining module is not part of the sources are modelled from the spec and
marked as such in their doc comments.
-/

/-- Record of one offering user as returned by
`list_remote_offering_users` (fields used by the processors). -/
structure OfferingUser where
  username : String
  user_uuid : String
deriving DecidableEq, Repr

/-- Embeds the set comprehension `existing_offering_user_usernames` of
`OfferingMembershipProcessor._sync_slurm_resource_users` (processors.py,
restricted branch): offering users whose username is already granted locally
and whose user is on the resource team. -/
def existing_offering_user_usernames (offering_users : List OfferingUser)
    (local_usernames team_user_uuids : Finset String) : Finset String :=
  ((offering_users.filter
      (fun u => u.username ∈ local_usernames ∧ u.user_uuid ∈ team_user_uuids)).map
    (fun u => u.username)).toFinset

/-- Embeds the set comprehension `new_offering_user_usernames` of
`_sync_slurm_resource_users` (processors.py, non-restricted branch). -/
def new_offering_user_usernames (offering_users : List OfferingUser)
    (local_usernames team_user_uuids : Finset String) : Finset String :=
  ((offering_users.filter
      (fun u => u.username ∉ local_usernames ∧ u.user_uuid ∈ team_user_uuids)).map
    (fun u => u.username)).toFinset

/-- Embeds the set comprehension `stale_offering_user_usernames` of
`_sync_slurm_resource_users` (processors.py, non-restricted branch). -/
def stale_offering_user_usernames (offering_users : List OfferingUser)
    (local_usernames team_user_uuids : Finset String) : Finset String :=
  ((offering_users.filter
      (fun u => u.username ∈ local_usernames ∧ u.user_uuid ∉ team_user_uuids)).map
    (fun u => u.username)).toFinset

/-- Embeds `_sync_slurm_resource_users` (processors.py): returns the pair
(usernames passed to `add_users_to_resource`, usernames passed to
`remove_users_from_account`).  For a restricted resource no addition call is
made and the `existing` set is removed; otherwise the `new` set is added and
the `stale` set removed. -/
def sync_slurm_resource_users (restrict_member_access : Bool)
    (offering_users : List OfferingUser)
    (local_usernames team_user_uuids : Finset String) :
    Finset String × Finset String :=
  if restrict_member_access then
    (∅, existing_offering_user_usernames offering_users local_usernames team_user_uuids)
  else
    (new_offering_user_usernames offering_users local_usernames team_user_uuids,
     stale_offering_user_usernames offering_users local_usernames team_user_uuids)

/-- Usernames of all offering users (the spec's `offering_usernames`). -/
def all_offering_usernames (offering_users : List OfferingUser) : Finset String :=
  (offering_users.map (fun u => u.username)).toFinset

/-- Usernames of offering users whose user is on the resource team. -/
def offering_usernames_on_team (offering_users : List OfferingUser)
    (team_user_uuids : Finset String) : Finset String :=
  ((offering_users.filter (fun u => u.user_uuid ∈ team_user_uuids)).map
    (fun u => u.username)).toFinset

/-- Counterexample to C1 as stated: for a restricted resource the claim
predicts removal of exactly `offering_usernames ∩ L`, but the code removes
only those granted offering usernames whose user is still on the team.  With
one offering user `alice` who is in `L` but not on the team, the claimed
removal set is `{alice}` while the code removes nothing. -/
theorem restricted_removal_counterexample :
    (sync_slurm_resource_users true [⟨"alice", "u1"⟩] {"alice"} ∅).2
      ≠ all_offering_usernames [⟨"alice", "u1"⟩] ∩ {"alice"} := by
  decide

/-- C1 (amended): for a non-restricted resource the sync pass issues as
additions exactly the on-team offering usernames not in `L` (`T \ L`) and as
removals exactly the granted usernames owned by an offering user who is no
longer on the team; for a restricted resource it issues zero additions and
removes exactly the on-team offering usernames that are in `L` (rather than
all offering usernames in `L`, as originally claimed). -/
theorem membership_sync_sets_amended (restrict : Bool)
    (offering_users : List OfferingUser)
    (local_usernames team_user_uuids : Finset String) :
    (restrict = false →
      (sync_slurm_resource_users restrict offering_users local_usernames team_user_uuids).1
          = offering_usernames_on_team offering_users team_user_uuids \ local_usernames
        ∧ ∀ x, x ∈ (sync_slurm_resource_users restrict offering_users local_usernames
              team_user_uuids).2
            ↔ x ∈ local_usernames ∧ ∃ u ∈ offering_users,
                u.username = x ∧ u.user_uuid ∉ team_user_uuids)
    ∧ (restrict = true →
      (sync_slurm_resource_users restrict offering_users local_usernames team_user_uuids).1
          = ∅
        ∧ (sync_slurm_resource_users restrict offering_users local_usernames
              team_user_uuids).2
          = offering_usernames_on_team offering_users team_user_uuids ∩ local_usernames) := by
  constructor
  · intro hr
    subst hr
    constructor
    · ext x
      simp only [sync_slurm_resource_users, Bool.false_eq_true, if_false,
        new_offering_user_usernames, offering_usernames_on_team, Finset.mem_sdiff,
        List.mem_toFinset, List.mem_map, List.mem_filter, decide_eq_true_eq]
      constructor
      · rintro ⟨u, ⟨hu, hnl, ht⟩, rfl⟩
        exact ⟨⟨u, ⟨hu, ht⟩, rfl⟩, hnl⟩
      · rintro ⟨⟨u, ⟨hu, ht⟩, rfl⟩, hnl⟩
        exact ⟨u, ⟨hu, hnl, ht⟩, rfl⟩
    · intro x
      simp only [sync_slurm_resource_users, Bool.false_eq_true, if_false,
        stale_offering_user_usernames, List.mem_toFinset, List.mem_map,
        List.mem_filter, decide_eq_true_eq]
      constructor
      · rintro ⟨u, ⟨hu, hl, ht⟩, rfl⟩
        exact ⟨hl, u, hu, rfl, ht⟩
      · rintro ⟨hl, u, hu, hux, ht⟩
        exact ⟨u, ⟨hu, hux ▸ hl, ht⟩, hux⟩
  · intro hr
    subst hr
    refine ⟨rfl, ?_⟩
    ext x
    simp only [sync_slurm_resource_users, if_true,
      existing_offering_user_usernames, offering_usernames_on_team,
      Finset.mem_inter, List.mem_toFinset, List.mem_map, List.mem_filter,
      decide_eq_true_eq]
    constructor
    · rintro ⟨u, ⟨hu, hl, ht⟩, rfl⟩
      exact ⟨⟨u, ⟨hu, ht⟩, rfl⟩, hl⟩
    · rintro ⟨⟨u, ⟨hu, ht⟩, rfl⟩, hl⟩
      exact ⟨u, ⟨hu, hl, ht⟩, rfl⟩

/-- Offering type constant `MARKETPLACE_SLURM_OFFERING_TYPE` imported by
processors.py from the package root. -/
def MARKETPLACE_SLURM_OFFERING_TYPE : String := "Marketplace.Slurm"

/-- View of a MarketplaceResource as fetched by
`OfferingReportProcessor.process_offering` (processors.py): its marketplace
uuid, backend id, control-plane state and offering type. -/
structure ResourceInfo where
  uuid : String
  backend_id : String
  state : String
  offering_type : String
deriving DecidableEq, Repr

/-- Modelled from the spec: `common_utils.RESOURCE_ERRED_STATE` is referenced
by processors.py but the defining `common_utils` revision is not among the
sources; the spec's data model names the state `Erred`. -/
def RESOURCE_ERRED_STATE : String := "Erred"

/-- Embeds the `missing_resources` comprehension of
`OfferingReportProcessor.process_offering` (processors.py): requested
resources whose backend id is absent from the `pull_resources` result and
whose state is not already erred. -/
def missing_resources (waldur_resources : List ResourceInfo)
    (pulled_backend_ids : Finset String) : List ResourceInfo :=
  waldur_resources.filter
    (fun r => r.backend_id ∉ pulled_backend_ids ∧ r.state ≠ RESOURCE_ERRED_STATE)

/-- Modelled from the spec: `common_utils.mark_waldur_resources_as_erred`
(absent from the sources) performs one set-state-erred call per listed
resource; the result is the list of marked marketplace uuids. -/
def erred_mark_calls (waldur_resources : List ResourceInfo)
    (pulled_backend_ids : Finset String) : List String :=
  (missing_resources waldur_resources pulled_backend_ids).map (fun r => r.uuid)

/-- Embeds the `offering_type` snapshot of
`OfferingReportProcessor.process_offering` (processors.py): read from the
first fetched resource, defaulting to the empty string. -/
def report_pass_offering_type (waldur_resources : List ResourceInfo) : String :=
  (waldur_resources.head?.map (fun r => r.offering_type)).getD ""

/-- Embeds the missing-resource step of
`OfferingReportProcessor.process_offering` (processors.py): the whole
detection-and-marking block is gated on the pass offering type being the
marketplace SLURM type; in a pass over any other offering type nothing is
marked. -/
def report_pass_erred_marks (waldur_resources : List ResourceInfo)
    (pulled_backend_ids : Finset String) : List String :=
  if report_pass_offering_type waldur_resources
      = MARKETPLACE_SLURM_OFFERING_TYPE then
    erred_mark_calls waldur_resources pulled_backend_ids
  else []

theorem erred_mark_calls_characterization
    (waldur_resources : List ResourceInfo) (pulled_backend_ids : Finset String)
    (hnd : (waldur_resources.map (fun r => r.uuid)).Nodup) :
    (∀ r ∈ waldur_resources,
      r.uuid ∈ erred_mark_calls waldur_resources pulled_backend_ids
        ↔ r.backend_id ∉ pulled_backend_ids ∧ r.state ≠ RESOURCE_ERRED_STATE)
    ∧ ∀ u, (erred_mark_calls waldur_resources pulled_backend_ids).count u ≤ 1 := by
  constructor
  · intro r hr
    constructor
    · intro hmem
      simp only [erred_mark_calls, missing_resources, List.mem_map,
        List.mem_filter, decide_eq_true_eq] at hmem
      obtain ⟨r', ⟨hr', hcond⟩, huuid⟩ := hmem
      have : r' = r := List.inj_on_of_nodup_map hnd hr' hr huuid
      rwa [this] at hcond
    · intro hcond
      simp only [erred_mark_calls, missing_resources, List.mem_map,
        List.mem_filter, decide_eq_true_eq]
      exact ⟨r, ⟨hr, hcond⟩, rfl⟩
  · intro u
    have hsub : List.Sublist (missing_resources waldur_resources pulled_backend_ids)
        waldur_resources := List.filter_sublist _
    have hnd' : ((missing_resources waldur_resources pulled_backend_ids).map
        (fun r => r.uuid)).Nodup :=
      hnd.sublist (hsub.map (fun r => r.uuid))
    exact List.nodup_iff_count_le_one.mp hnd' u

/-- Counterexample to C2 as stated: in a usage-report pass over an offering
whose type is not the marketplace SLURM type, a requested resource that is
missing from the pull result and is not in the `Erred` state is nevertheless
not marked erred — the whole marking block is skipped. -/
theorem missing_resource_unmarked_counterexample :
    report_pass_erred_marks [⟨"r1", "b1", "OK", "Marketplace.Script"⟩] ∅ = []
      ∧ "b1" ∉ (∅ : Finset String) ∧ "OK" ≠ RESOURCE_ERRED_STATE := by
  decide

/-- C2 (amended): in a usage-report pass whose offering type is the
marketplace SLURM type, a requested resource is marked erred iff its backend
id is absent from the pull result and its state is not already `Erred`;
assuming distinct marketplace uuids in the request, each such resource is
marked at most (hence exactly) once, and a resource already in the `Erred`
state is never re-marked.  In a pass over any other offering type no
resource is marked at all. -/
theorem missing_resources_marked_exactly_once
    (waldur_resources : List ResourceInfo) (pulled_backend_ids : Finset String)
    (hnd : (waldur_resources.map (fun r => r.uuid)).Nodup) :
    (report_pass_offering_type waldur_resources
        = MARKETPLACE_SLURM_OFFERING_TYPE →
      (∀ r ∈ waldur_resources,
        r.uuid ∈ report_pass_erred_marks waldur_resources pulled_backend_ids
          ↔ r.backend_id ∉ pulled_backend_ids ∧ r.state ≠ RESOURCE_ERRED_STATE)
      ∧ ∀ u, (report_pass_erred_marks waldur_resources
          pulled_backend_ids).count u ≤ 1)
    ∧ (report_pass_offering_type waldur_resources
        ≠ MARKETPLACE_SLURM_OFFERING_TYPE →
      report_pass_erred_marks waldur_resources pulled_backend_ids = []) := by
  constructor
  · intro hslurm
    have hmarks : report_pass_erred_marks waldur_resources pulled_backend_ids
        = erred_mark_calls waldur_resources pulled_backend_ids := by
      simp [report_pass_erred_marks, hslurm]
    rw [hmarks]
    exact erred_mark_calls_characterization waldur_resources pulled_backend_ids hnd
  · intro hns
    simp [report_pass_erred_marks, hns]

/-- Witness for C2 at a concrete SLURM-type pass: two requested resources,
one pulled, one missing and not erred. -/
theorem missing_resources_marked_exactly_once_witness :
    "r2" ∈ report_pass_erred_marks
        [⟨"r1", "b1", "OK", "Marketplace.Slurm"⟩,
         ⟨"r2", "b2", "OK", "Marketplace.Slurm"⟩] {"b1"}
      ↔ ("b2" ∉ ({"b1"} : Finset String) ∧ "OK" ≠ RESOURCE_ERRED_STATE) :=
  ((missing_resources_marked_exactly_once
      [⟨"r1", "b1", "OK", "Marketplace.Slurm"⟩,
       ⟨"r2", "b2", "OK", "Marketplace.Slurm"⟩] {"b1"} (by decide)).1
    (by decide)).1 ⟨"r2", "b2", "OK", "Marketplace.Slurm"⟩ (by decide)

/-- Lookup in an insertion-ordered association list, the shallow embedding of
a Python `dict` (keys are unique by construction of `alSet`). -/
def alGet {α : Type} : List (String × α) → String → Option α
  | [], _ => none
  | p :: d, k => if p.1 = k then some p.2 else alGet d k

/-- Assignment `d[k] = v` on the association-list embedding of a Python
`dict`: updates the existing entry in place, else appends. -/
def alSet {α : Type} : List (String × α) → String → α → List (String × α)
  | [], k, v => [(k, v)]
  | p :: d, k, v => if p.1 = k then (k, v) :: d else p :: alSet d k v

/-- A per-component usage mapping (`Dict[str, float]`), absent components
reading as zero usage. -/
abbrev UsageDict := List (String × ℚ)

/-- Component value of a usage dict, with `0` for an absent component. -/
def dictGet (d : UsageDict) (k : String) : ℚ :=
  (alGet d k).getD 0

/-- One parsed `sacct` report line (`SlurmReportLine`): account, user and
per-component usage. -/
structure ReportLine where
  account : String
  user : String
  tres_usage : UsageDict

/-- Accumulates one dict into a running result, entry by entry
(`result[key] = result.get(key, 0) + value`). -/
def add_dict (acc : UsageDict) (d : UsageDict) : UsageDict :=
  d.foldl (fun acc p => alSet acc p.1 (dictGet acc p.1 + p.2)) acc

/-- Modelled from the spec: `backend_utils.sum_dicts` (its defining module
`waldur_site_agent/backends/utils.py` is not among the sources) computes the
component-wise sum of a list of usage dicts. -/
def sum_dicts (ds : List UsageDict) : UsageDict :=
  ds.foldl add_dict []

/-- Per-account block of a usage report: username (or the synthetic total
key) to usage dict. -/
abbrev AccountUsage := List (String × UsageDict)

/-- A usage report: account to per-account block. -/
abbrev UsageReport := List (String × AccountUsage)

/-- Synthetic per-account total key used by `SlurmBackend._get_usage_report`. -/
def TOTAL_ACCOUNT_USAGE : String := "TOTAL_ACCOUNT_USAGE"

/-- One iteration of the first loop of `SlurmBackend._get_usage_report`
(backend.py): `report.setdefault(account, {}).setdefault(user, {})` followed
by `report[account][user] = sum_dicts([existing, line.tres_usage])`. -/
def usage_report_step (report : UsageReport) (line : ReportLine) : UsageReport :=
  let account_usage := (alGet report line.account).getD []
  let user_usage_existing := (alGet account_usage line.user).getD []
  let user_usage_new := sum_dicts [user_usage_existing, line.tres_usage]
  alSet report line.account (alSet account_usage line.user user_usage_new)

/-- Second loop of `_get_usage_report`: appends to every account block the
synthetic total row, the `sum_dicts` of all its per-user rows. -/
def add_total_rows (report : UsageReport) : UsageReport :=
  report.map (fun a =>
    (a.1, alSet a.2 TOTAL_ACCOUNT_USAGE (sum_dicts (a.2.map Prod.snd))))

/-- Modelled from the spec: `utils.convert_slurm_units_to_waldur_ones` (its
defining module `waldur_site_agent/backends/slurm_backend/utils.py` is not
among the sources) converts every component value from the cluster's native
unit to the control-plane unit by dividing by the component's configured unit
factor. -/
def convert_usage_dict (unit_factor : String → ℚ) (d : UsageDict) : UsageDict :=
  d.map (fun p => (p.1, p.2 / unit_factor p.1))

/-- Embeds `SlurmBackend._get_usage_report` (backend.py): per-(account,user)
aggregation, synthetic per-account totals, then per-row unit conversion. -/
def get_usage_report (unit_factor : String → ℚ) (lines : List ReportLine) :
    UsageReport :=
  (add_total_rows (lines.foldl usage_report_step [])).map
    (fun a => (a.1, a.2.map (fun p => (p.1, convert_usage_dict unit_factor p.2))))

theorem alGet_alSet {α : Type} (d : List (String × α)) (k c : String) (v : α) :
    alGet (alSet d k v) c = if k = c then some v else alGet d c := by
  induction d with
  | nil => simp [alGet, alSet]
  | cons p d ih =>
    by_cases hpk : p.1 = k
    · simp only [alSet, if_pos hpk]
      by_cases hkc : k = c
      · simp [alGet, hkc]
      · simp [alGet, hkc, hpk ▸ hkc]
    · simp only [alSet, if_neg hpk]
      by_cases hpc : p.1 = c
      · have hkc : ¬ k = c := fun h => hpk (by rw [hpc, h])
        simp [alGet, hpc, hkc]
      · simp [alGet, hpc, ih]

theorem dictGet_alSet (d : UsageDict) (k c : String) (v : ℚ) :
    dictGet (alSet d k v) c = if k = c then v else dictGet d c := by
  simp only [dictGet, alGet_alSet]
  by_cases h : k = c <;> simp [h]

theorem alGet_eq_none_of_not_mem {α : Type} (d : List (String × α)) (c : String)
    (h : c ∉ d.map Prod.fst) : alGet d c = none := by
  induction d with
  | nil => rfl
  | cons p d ih =>
    simp only [List.map_cons, List.mem_cons, not_or] at h
    have hpc : ¬ p.1 = c := fun he => h.1 he.symm
    simp only [alGet, if_neg hpc]
    exact ih h.2

theorem dictGet_eq_zero_of_not_mem (d : UsageDict) (c : String)
    (h : c ∉ d.map Prod.fst) : dictGet d c = 0 := by
  simp [dictGet, alGet_eq_none_of_not_mem d c h]

theorem mem_keys_alSet {α : Type} (d : List (String × α)) (k c : String) (v : α) :
    c ∈ (alSet d k v).map Prod.fst ↔ c = k ∨ c ∈ d.map Prod.fst := by
  induction d with
  | nil => simp [alSet]
  | cons p d ih =>
    by_cases hpk : p.1 = k
    · simp only [alSet, hpk, eq_self_iff_true, if_true, List.map_cons,
        List.mem_cons]
      tauto
    · simp only [alSet, if_neg hpk, List.map_cons, List.mem_cons, ih]
      tauto

theorem alSet_keys_nodup {α : Type} (d : List (String × α)) (k : String) (v : α)
    (h : (d.map Prod.fst).Nodup) : ((alSet d k v).map Prod.fst).Nodup := by
  induction d with
  | nil => simp [alSet]
  | cons p d ih =>
    simp only [List.map_cons, List.nodup_cons] at h
    by_cases hpk : p.1 = k
    · subst hpk
      simpa [alSet, List.nodup_cons] using h
    · simp only [alSet, if_neg hpk, List.map_cons, List.nodup_cons,
        mem_keys_alSet]
      refine ⟨?_, ih h.2⟩
      rintro (hc | hc)
      · exact hpk hc
      · exact h.1 hc

theorem mem_alSet {α : Type} (p : String × α) (d : List (String × α))
    (k : String) (v : α) (h : p ∈ alSet d k v) : p ∈ d ∨ p = (k, v) := by
  induction d with
  | nil => simpa [alSet] using h
  | cons q d ih =>
    by_cases hqk : q.1 = k
    · simp only [alSet, if_pos hqk, List.mem_cons] at h
      rcases h with h | h
      · exact Or.inr h
      · exact Or.inl (List.mem_cons_of_mem _ h)
    · simp only [alSet, if_neg hqk, List.mem_cons] at h
      rcases h with h | h
      · exact Or.inl (h ▸ List.mem_cons_self _ _)
      · rcases ih h with h' | h'
        · exact Or.inl (List.mem_cons_of_mem _ h')
        · exact Or.inr h'

theorem alGet_mem {α : Type} (d : List (String × α)) (k : String) (v : α)
    (h : alGet d k = some v) : (k, v) ∈ d := by
  induction d with
  | nil => simp [alGet] at h
  | cons p d ih =>
    by_cases hpk : p.1 = k
    · simp only [alGet, if_pos hpk, Option.some.injEq] at h
      obtain ⟨a, b⟩ := p
      simp only at hpk h
      subst hpk
      subst h
      exact List.mem_cons_self _ _
    · simp only [alGet, if_neg hpk] at h
      exact List.mem_cons_of_mem _ (ih h)

theorem alSet_of_not_mem {α : Type} (d : List (String × α)) (k : String) (v : α)
    (h : k ∉ d.map Prod.fst) : alSet d k v = d ++ [(k, v)] := by
  induction d with
  | nil => rfl
  | cons p d ih =>
    simp only [List.map_cons, List.mem_cons, not_or] at h
    have hpk : ¬ p.1 = k := fun he => h.1 he.symm
    simp only [alSet, if_neg hpk, List.cons_append, List.cons.injEq, true_and]
    exact ih h.2

theorem dictGet_cons (p : String × ℚ) (d : UsageDict) (c : String) :
    dictGet (p :: d) c = if p.1 = c then p.2 else dictGet d c := by
  by_cases h : p.1 = c <;> simp [dictGet, alGet, h]

theorem dictGet_nil (c : String) : dictGet [] c = 0 := rfl

theorem dictGet_add_dict (d acc : UsageDict) (c : String)
    (hd : (d.map Prod.fst).Nodup) :
    dictGet (add_dict acc d) c = dictGet acc c + dictGet d c := by
  induction d generalizing acc with
  | nil => simp [add_dict, dictGet_nil]
  | cons p d ih =>
    simp only [List.map_cons, List.nodup_cons] at hd
    have hstep : add_dict acc (p :: d)
        = add_dict (alSet acc p.1 (dictGet acc p.1 + p.2)) d := rfl
    rw [hstep, ih _ hd.2, dictGet_alSet, dictGet_cons]
    by_cases hc : p.1 = c
    · subst hc
      rw [if_pos rfl, if_pos rfl, dictGet_eq_zero_of_not_mem d p.1 hd.1]
      ring
    · rw [if_neg hc, if_neg hc]

theorem dictGet_foldl_add_dict (ds : List UsageDict) (acc : UsageDict)
    (c : String) (h : ∀ d ∈ ds, (d.map Prod.fst).Nodup) :
    dictGet (ds.foldl add_dict acc) c
      = dictGet acc c + (ds.map (fun d => dictGet d c)).sum := by
  induction ds generalizing acc with
  | nil => simp
  | cons d ds ih =>
    simp only [List.foldl_cons, List.map_cons, List.sum_cons]
    rw [ih _ (fun x hx => h x (List.mem_cons_of_mem _ hx)),
      dictGet_add_dict d acc c (h d (List.mem_cons_self _ _))]
    ring

theorem dictGet_sum_dicts (ds : List UsageDict) (c : String)
    (h : ∀ d ∈ ds, (d.map Prod.fst).Nodup) :
    dictGet (sum_dicts ds) c = (ds.map (fun d => dictGet d c)).sum := by
  rw [sum_dicts, dictGet_foldl_add_dict ds [] c h, dictGet_nil, zero_add]

theorem add_dict_keys_nodup (d acc : UsageDict)
    (h : (acc.map Prod.fst).Nodup) :
    ((add_dict acc d).map Prod.fst).Nodup := by
  induction d generalizing acc with
  | nil => exact h
  | cons p d ih => exact ih _ (alSet_keys_nodup _ _ _ h)

theorem sum_dicts_keys_nodup (ds : List UsageDict) :
    ((sum_dicts ds).map Prod.fst).Nodup := by
  rw [sum_dicts]
  suffices h : ∀ acc : UsageDict, (acc.map Prod.fst).Nodup →
      ((ds.foldl add_dict acc).map Prod.fst).Nodup from h [] (by simp)
  induction ds with
  | nil => exact fun acc h => h
  | cons d ds ih => exact fun acc h => ih _ (add_dict_keys_nodup _ _ h)

/-- Well-formedness of the intermediate usage report built by the first loop
of `_get_usage_report`: no row is keyed by the synthetic total key and every
row's component keys are distinct. -/
def ReportWF (report : UsageReport) : Prop :=
  ∀ a ∈ report, ∀ p ∈ a.2,
    p.1 ≠ TOTAL_ACCOUNT_USAGE ∧ (p.2.map Prod.fst).Nodup

theorem ReportWF_step (report : UsageReport) (line : ReportLine)
    (hw : ReportWF report) (hl : line.user ≠ TOTAL_ACCOUNT_USAGE) :
    ReportWF (usage_report_step report line) := by
  intro a ha p hp
  simp only [usage_report_step] at ha
  rcases mem_alSet _ _ _ _ ha with ha' | ha'
  · exact hw a ha' p hp
  · subst ha'
    simp only at hp
    rcases mem_alSet _ _ _ _ hp with hp' | hp'
    · rcases halg : alGet report line.account with _ | ud
      · rw [halg] at hp'
        simp at hp'
      · rw [halg] at hp'
        simp only [Option.getD_some] at hp'
        exact hw (line.account, ud) (alGet_mem _ _ _ halg) p hp'
    · subst hp'
      exact ⟨hl, sum_dicts_keys_nodup _⟩

theorem ReportWF_foldl (lines : List ReportLine) (init : UsageReport)
    (hw : ReportWF init)
    (hl : ∀ l ∈ lines, l.user ≠ TOTAL_ACCOUNT_USAGE) :
    ReportWF (lines.foldl usage_report_step init) := by
  induction lines generalizing init with
  | nil => exact hw
  | cons l lines ih =>
    exact ih _ (ReportWF_step _ _ hw (hl l (List.mem_cons_self _ _)))
      (fun x hx => hl x (List.mem_cons_of_mem _ hx))

theorem dictGet_convert (unit_factor : String → ℚ) (d : UsageDict) (c : String) :
    dictGet (convert_usage_dict unit_factor d) c
      = dictGet d c / unit_factor c := by
  induction d with
  | nil => simp [convert_usage_dict, dictGet_nil]
  | cons p d ih =>
    by_cases h : p.1 = c
    · subst h
      simp [convert_usage_dict, dictGet_cons]
    · have ih' := ih
      simp only [convert_usage_dict] at ih'
      simp [convert_usage_dict, dictGet_cons, h, ih']

theorem list_sum_div (l : List ℚ) (q : ℚ) :
    l.sum / q = (l.map (fun x => x / q)).sum := by
  induction l with
  | nil => simp
  | cons x l ih => simp [add_div, ih]

theorem alGet_append_of_not_mem {α : Type} (xs ys : List (String × α))
    (k : String) (h : k ∉ xs.map Prod.fst) :
    alGet (xs ++ ys) k = alGet ys k := by
  induction xs with
  | nil => rfl
  | cons p xs ih =>
    simp only [List.map_cons, List.mem_cons, not_or] at h
    have hpk : ¬ p.1 = k := fun he => h.1 he.symm
    simp only [List.cons_append, alGet, if_neg hpk]
    exact ih h.2

/-- C3: in every usage report produced by `SlurmBackend._get_usage_report`,
each account's synthetic `TOTAL_ACCOUNT_USAGE` row equals, component-wise,
the sum of that account's per-user rows, after the per-row conversion from
native to control-plane units (assuming no input line carries the synthetic
key as a username). -/
theorem usage_report_total_equals_user_sum (unit_factor : String → ℚ)
    (lines : List ReportLine)
    (husers : ∀ l ∈ lines, l.user ≠ TOTAL_ACCOUNT_USAGE) :
    ∀ a ∈ get_usage_report unit_factor lines, ∀ c,
      dictGet ((alGet a.2 TOTAL_ACCOUNT_USAGE).getD []) c
        = ((a.2.filter (fun p => p.1 ≠ TOTAL_ACCOUNT_USAGE)).map
            (fun p => dictGet p.2 c)).sum := by
  intro a ha c
  have hwf : ReportWF (lines.foldl usage_report_step []) :=
    ReportWF_foldl lines [] (by intro x hx; simp at hx) husers
  simp only [get_usage_report, List.mem_map] at ha
  obtain ⟨b, hb, rfl⟩ := ha
  simp only [add_total_rows, List.mem_map] at hb
  obtain ⟨b0, hb0, rfl⟩ := hb
  have hrows := hwf b0 hb0
  have hTT : TOTAL_ACCOUNT_USAGE ∉ b0.2.map Prod.fst := by
    intro hmem
    obtain ⟨p, hp, hp1⟩ := List.mem_map.mp hmem
    exact (hrows p hp).1 hp1
  rw [alSet_of_not_mem _ _ _ hTT]
  simp only [List.map_append, List.map_cons, List.map_nil, List.filter_append]
  have hkeys : (b0.2.map (fun p => (p.1, convert_usage_dict unit_factor p.2))).map
      Prod.fst = b0.2.map Prod.fst := by
    simp [List.map_map, Function.comp]
  rw [alGet_append_of_not_mem _ _ _ (hkeys ▸ hTT)]
  have hfilter : (b0.2.map
        (fun p => (p.1, convert_usage_dict unit_factor p.2))).filter
        (fun p => p.1 ≠ TOTAL_ACCOUNT_USAGE)
      = b0.2.map (fun p => (p.1, convert_usage_dict unit_factor p.2)) := by
    rw [List.filter_eq_self]
    intro p hp
    obtain ⟨q, hq, rfl⟩ := List.mem_map.mp hp
    simpa using (hrows q hq).1
  rw [hfilter]
  have htail : (([(TOTAL_ACCOUNT_USAGE,
        convert_usage_dict unit_factor
          (sum_dicts (b0.2.map Prod.snd)))] : AccountUsage)).filter
        (fun p => p.1 ≠ TOTAL_ACCOUNT_USAGE) = [] := by
    simp
  rw [htail]
  simp only [List.map_nil, List.append_nil]
  simp only [alGet, eq_self_iff_true, if_true, Option.getD_some]
  rw [dictGet_convert, dictGet_sum_dicts _ c
    (fun d hd => by
      obtain ⟨p, hp, rfl⟩ := List.mem_map.mp hd
      exact (hrows p hp).2),
    list_sum_div]
  simp only [List.map_map]
  refine congrArg List.sum (List.map_congr_left ?_)
  intro p hp
  simp [Function.comp, dictGet_convert]

/-- Witness for C3 at a concrete pass: two users of one account with cpu
usage 5 and 3 native units and unit factor 2; the converted total row
`cpu = 4` equals the sum of the converted per-user rows `5/2 + 3/2`. -/
theorem usage_report_total_equals_user_sum_witness :
    dictGet ((alGet ([("alice", [("cpu", (5 : ℚ)/2)]),
          ("bob", [("cpu", (3 : ℚ)/2)]),
          ("TOTAL_ACCOUNT_USAGE", [("cpu", (4 : ℚ))])] : AccountUsage)
        TOTAL_ACCOUNT_USAGE).getD []) "cpu"
      = ((([("alice", [("cpu", (5 : ℚ)/2)]), ("bob", [("cpu", (3 : ℚ)/2)]),
          ("TOTAL_ACCOUNT_USAGE", [("cpu", (4 : ℚ))])] : AccountUsage).filter
            (fun p => p.1 ≠ TOTAL_ACCOUNT_USAGE)).map
          (fun p => dictGet p.2 "cpu")).sum :=
  usage_report_total_equals_user_sum (fun _ => 2)
    [⟨"hpc_a", "alice", [("cpu", 5)]⟩, ⟨"hpc_a", "bob", [("cpu", 3)]⟩]
    (by decide)
    ("hpc_a", [("alice", [("cpu", (5 : ℚ)/2)]), ("bob", [("cpu", (3 : ℚ)/2)]),
      ("TOTAL_ACCOUNT_USAGE", [("cpu", (4 : ℚ))])])
    (by
      have hrep : get_usage_report (fun _ => 2)
          [⟨"hpc_a", "alice", [("cpu", 5)]⟩, ⟨"hpc_a", "bob", [("cpu", 3)]⟩]
          = [("hpc_a", [("alice", [("cpu", (5 : ℚ)/2)]),
              ("bob", [("cpu", (3 : ℚ)/2)]),
              ("TOTAL_ACCOUNT_USAGE", [("cpu", (4 : ℚ))])])] := by
        simp [get_usage_report, usage_report_step, add_total_rows, sum_dicts,
          add_dict, alSet, alGet, dictGet, convert_usage_dict,
          TOTAL_ACCOUNT_USAGE]
        norm_num
      rw [hrep]
      exact List.mem_cons_self _ _) "cpu"

/-- Exception kinds relevant to order processing: control-plane client
errors (`WaldurClientException`), accounting-backend errors (`BackendError`)
and any other Python exception. -/
inductive OrderExc
  | waldurClientError (msg : String)
  | backendError (msg : String)
  | otherError (msg : String)
deriving DecidableEq, Repr

/-- Message carried by an exception (`str(e)`). -/
def excMessage : OrderExc → String
  | .waldurClientError m => m
  | .backendError m => m
  | .otherError m => m

/-- Effectful calls issued by the order processors against the control plane
and the backend. -/
inductive Call
  | markDone
  | markErred (msg : String)
  | setAllocationState (allocation_state : String)
  | createBackendResource
  | setBackendId (backend_id : String)
  | setAllocationBackendId (backend_id : String)
  | setAllocationLimits
  | addUsersToResource (usernames : Finset String)
  | setLimits (backend_id : String) (limits : List (String × Int))
deriving DecidableEq

/-- Embeds the exception handler of `OfferingOrderProcessor.process_order`
(processors.py): the try-block's outcome (`order_is_done`, or a raised
exception) is mapped to the control-plane calls the handler issues — mark
done on success, mark erred with the captured message on any exception. -/
def process_order_handle (body : Except OrderExc Bool) : List Call :=
  match body with
  | .ok true => [Call.markDone]
  | .ok false => []
  | .error e => [Call.markErred (excMessage e)]

/-- Embeds the order loop of `OfferingOrderProcessor.process_offering`
(processors.py): every order of the batch is handled, each inside its own
try/except. -/
def process_offering_orders (bodies : List (Except OrderExc Bool)) : List Call :=
  (bodies.map process_order_handle).flatten

/-- Embeds the per-order try/except of the legacy
`OfferingOrderProcessor.process_offering` (agent_order_process.py): a
successful body is marked done; a `WaldurClientException` is only logged; a
`BackendError` marks the order erred; any other exception propagates out of
the handler. -/
def process_order_handle_legacy (body : Except OrderExc Unit) :
    Except OrderExc (List Call) :=
  match body with
  | .ok _ => .ok [Call.markDone]
  | .error (.waldurClientError _) => .ok []
  | .error (.backendError m) => .ok [Call.markErred m]
  | .error e => .error e

/-- Embeds the legacy order loop (agent_order_process.py): orders are handled
in sequence; an exception escaping a handler aborts the remaining orders. -/
def process_offering_orders_legacy :
    List (Except OrderExc Unit) → List Call × Option OrderExc
  | [] => ([], none)
  | b :: rest =>
    match process_order_handle_legacy b with
    | .ok calls =>
      let r := process_offering_orders_legacy rest
      (calls ++ r.1, r.2)
    | .error e => ([], some e)

/-- Counterexample to C5 as stated: in the legacy order loop
(agent_order_process.py) a `WaldurClientException` raised while approving or
dispatching an order is only logged — the handler issues no calls at all, in
particular no erred transition for the order. -/
theorem order_exception_erred_counterexample :
    process_order_handle_legacy
        (Except.error (OrderExc.waldurClientError "api down")) = Except.ok []
      ∧ Call.markErred "api down" ∉ ([] : List Call) := by
  exact ⟨rfl, by simp⟩

/-- C5 (amended): in the current processor (processors.py) any exception
during order approval/dispatch marks that order erred with the captured
message and the remaining orders of the batch are still processed; in the
legacy module (agent_order_process.py) only `BackendError` marks the order
erred, while a control-plane client exception is logged and leaves the order
unmarked (other exceptions escape the handler). -/
theorem order_exception_handling_amended :
    (∀ (e : OrderExc) (b₁ b₂ : List (Except OrderExc Bool)),
      process_offering_orders (b₁ ++ Except.error e :: b₂)
        = process_offering_orders b₁
            ++ [Call.markErred (excMessage e)] ++ process_offering_orders b₂)
    ∧ (∀ m : String,
      process_order_handle_legacy (Except.error (OrderExc.backendError m))
          = Except.ok [Call.markErred m]
        ∧ process_order_handle_legacy (Except.error (OrderExc.waldurClientError m))
          = Except.ok []) := by
  constructor
  · intro e b₁ b₂
    simp [process_offering_orders, process_order_handle]
  · intro m
    exact ⟨rfl, rfl⟩

/-- Embeds `OfferingOrderProcessor._process_update_order` (processors.py):
returns `order_is_done` and the calls issued.  The backend set-limits call is
guarded by `if new_limits:`, so an empty payload issues no backend call and
the method still returns `True`. -/
def process_update_order (is_slurm_offering : Bool) (backend_id : String)
    (new_limits : List (String × Int)) : Bool × List Call :=
  let pre := if is_slurm_offering then [Call.setAllocationState "Updating"] else []
  let lim := if new_limits.isEmpty then []
    else [Call.setLimits backend_id new_limits]
  let post := if is_slurm_offering then [Call.setAllocationState "OK"] else []
  (true, pre ++ lim ++ post)

/-- Embeds the legacy `_process_update_order` (agent_order_process.py): after
logging the empty-limits condition it calls
`resource_backend.set_resource_limits(backend_id, new_limits)`
unconditionally. -/
def process_update_order_legacy (is_slurm_offering : Bool) (backend_id : String)
    (new_limits : List (String × Int)) : List Call :=
  (if is_slurm_offering then [Call.setAllocationState "Updating"] else [])
    ++ [Call.setLimits backend_id new_limits]
    ++ (if is_slurm_offering then [Call.setAllocationState "OK"] else [])

/-- Embeds the Update branch of `process_order` (processors.py): the update
calls followed by the done-marking when `order_is_done` is returned. -/
def process_order_update (is_slurm_offering : Bool) (backend_id : String)
    (new_limits : List (String × Int)) : List Call :=
  match process_update_order is_slurm_offering backend_id new_limits with
  | (true, calls) => calls ++ [Call.markDone]
  | (false, calls) => calls

/-- Counterexample to C6 as stated: the legacy `_process_update_order`
(agent_order_process.py) still issues the backend set-limits call when the
order carries an empty limits payload. -/
theorem empty_update_limits_counterexample :
    Call.setLimits "acct-1" [] ∈ process_update_order_legacy true "acct-1" [] := by
  decide

/-- C6 (amended): in processors.py an Update order with an empty limits
payload issues no backend set-limits call, is not marked erred, and is marked
done; in the legacy agent_order_process.py the set-limits call is still
issued with the empty payload. -/
theorem empty_update_limits_amended (is_slurm_offering : Bool)
    (backend_id : String) :
    (∀ (a : String) (l : List (String × Int)),
      Call.setLimits a l ∉ process_order_update is_slurm_offering backend_id [])
    ∧ Call.markDone ∈ process_order_update is_slurm_offering backend_id []
    ∧ (∀ m : String,
      Call.markErred m ∉ process_order_update is_slurm_offering backend_id [])
    ∧ Call.setLimits backend_id []
        ∈ process_update_order_legacy is_slurm_offering backend_id [] := by
  refine ⟨?_, ?_, ?_, ?_⟩
  · intro a l
    cases is_slurm_offering <;>
      simp [process_order_update, process_update_order]
  · cases is_slurm_offering <;>
      simp [process_order_update, process_update_order]
  · intro m
    cases is_slurm_offering <;>
      simp [process_order_update, process_update_order]
  · cases is_slurm_offering <;> simp [process_update_order_legacy]

/-- Order fields consulted by the polling loops of `_process_create_order`
(processors.py): presence of `marketplace_resource_uuid`, order state,
offering type, and whether `resource_uuid` is non-null. -/
structure OrderView where
  has_marketplace_resource_uuid : Bool
  state : String
  offering_type : String
  resource_uuid_present : Bool
deriving DecidableEq, Repr

/-- The `max_attempts` bound of `_process_create_order` (processors.py). -/
def max_attempts : Nat := 4

/-- Outcome of one bounded polling loop of `_process_create_order`: the two
early `return False` paths (budget exhausted, unexpected order state) and
successful materialization. -/
inductive PollOutcome
  | timeout
  | badState
  | ok (v : OrderView)
deriving DecidableEq, Repr

/-- Embeds one `while` loop of `_process_create_order` (processors.py):
while the condition has not materialized, give up after the attempt budget,
abort on a non-executing state, otherwise refresh the order (`fetch` yields
the successive `get_order` results) and retry. -/
def poll_order (fetch : Nat → OrderView) (cond : OrderView → Bool)
    (v : OrderView) (attempts : Nat) : PollOutcome :=
  if cond v then .ok v
  else if attempts > max_attempts then .timeout
  else if v.state ≠ "executing" then .badState
  else poll_order fetch cond (fetch attempts) (attempts + 1)
termination_by max_attempts + 1 - attempts
decreasing_by simp_wf; omega

theorem poll_order_eq (fetch : Nat → OrderView) (cond : OrderView → Bool)
    (v : OrderView) (attempts : Nat) :
    poll_order fetch cond v attempts
      = if cond v then PollOutcome.ok v
        else if attempts > max_attempts then PollOutcome.timeout
        else if v.state ≠ "executing" then PollOutcome.badState
        else poll_order fetch cond (fetch attempts) (attempts + 1) := by
  rw [poll_order]

theorem poll_order_timeout (fetch : Nat → OrderView) (cond : OrderView → Bool)
    (hf : ∀ i, cond (fetch i) = false ∧ (fetch i).state = "executing") :
    ∀ (n attempts : Nat) (v : OrderView), max_attempts + 1 - attempts ≤ n →
      cond v = false → v.state = "executing" →
      poll_order fetch cond v attempts = PollOutcome.timeout := by
  intro n
  induction n with
  | zero =>
    intro attempts v hle hc hs
    rw [poll_order_eq, hc]
    have hgt : attempts > max_attempts := by omega
    simp [hgt]
  | succ n ih =>
    intro attempts v hle hc hs
    rw [poll_order_eq, hc]
    by_cases hgt : attempts > max_attempts
    · simp [hgt]
    · have hrec := ih (attempts + 1) (fetch attempts) (by omega)
        (hf attempts).1 (hf attempts).2
      simp [hgt, hs, hrec]

/-- Resource fields consulted by `_create_resource` (processors.py). -/
structure WaldurResource where
  uuid : String
  name : String
  state : String
  offering_type : String
deriving DecidableEq, Repr

/-- Embeds `OfferingOrderProcessor._create_resource` (processors.py):
`is_uuid` is the external uuid validator, `backend_create` the outcome of
`resource_backend.create_resource` (the assigned backend id, or a raised
exception).  Returns `none` for the invalid-uuid early return, otherwise the
assigned backend id together with the calls issued. -/
def create_resource_run (is_uuid : String → Bool) (res : WaldurResource)
    (backend_create : Except OrderExc String) :
    Except OrderExc (Option (String × List Call)) :=
  if ¬ is_uuid res.uuid then .ok none
  else
    let pre : List Call :=
      if res.state ≠ "Creating"
          ∧ res.offering_type = MARKETPLACE_SLURM_OFFERING_TYPE then
        [Call.setAllocationState "Creating"]
      else []
    match backend_create with
    | .error e => .error e
    | .ok backend_id =>
      if backend_id = "" then
        .error (.backendError "Unable to create a backend resource")
      else
        .ok (some (backend_id,
          pre ++ [Call.createBackendResource, Call.setBackendId backend_id]
            ++ (if res.offering_type = MARKETPLACE_SLURM_OFFERING_TYPE then
              [Call.setAllocationBackendId backend_id, Call.setAllocationLimits]
            else [])))

/-- Embeds `_process_create_order` (processors.py): the two bounded polling
loops followed by resource creation; returns `order_is_done` and the calls
issued, or the exception raised. -/
def process_create_order (fetch fetch2 : Nat → OrderView) (v : OrderView)
    (is_uuid : String → Bool) (res : WaldurResource)
    (backend_create : Except OrderExc String) (team_usernames : Finset String) :
    Except OrderExc (Bool × List Call) :=
  match poll_order fetch (fun w => w.has_marketplace_resource_uuid) v 0 with
  | .timeout => .ok (false, [])
  | .badState => .ok (false, [])
  | .ok v1 =>
    match (if v1.offering_type = MARKETPLACE_SLURM_OFFERING_TYPE then
        poll_order fetch2 (fun w => w.resource_uuid_present) v1 0
      else .ok v1) with
    | .timeout => .ok (false, [])
    | .badState => .ok (false, [])
    | .ok v2 =>
      match create_resource_run is_uuid res backend_create with
      | .error e => .error e
      | .ok none => .error (.backendError "Unable to create a resource")
      | .ok (some (_, calls)) =>
        if v2.offering_type = MARKETPLACE_SLURM_OFFERING_TYPE then
          .ok (true, calls ++ [Call.setAllocationState "OK",
            Call.addUsersToResource team_usernames])
        else .ok (true, calls)

/-- Embeds the Create branch of `process_order` (processors.py): done-marking
when `_process_create_order` returns `True`, only a log when it returns
`False`, erred-marking when it raises. -/
def process_order_create (fetch fetch2 : Nat → OrderView) (v : OrderView)
    (is_uuid : String → Bool) (res : WaldurResource)
    (backend_create : Except OrderExc String) (team_usernames : Finset String) :
    List Call :=
  match process_create_order fetch fetch2 v is_uuid res backend_create
      team_usernames with
  | .ok (true, calls) => calls ++ [Call.markDone]
  | .ok (false, calls) => calls
  | .error e => [Call.markErred (excMessage e)]

/-- C4: when the resource id of a Create order never materializes within the
polling budget (every refreshed order still lacks `marketplace_resource_uuid`
and stays `executing`), the order processing issues no calls at all — no
backend resource creation, no done-marking and no erred-marking — so a later
periodic pass can retry the order. -/
theorem create_order_timeout_leaves_order_untouched
    (fetch fetch2 : Nat → OrderView) (v : OrderView) (is_uuid : String → Bool)
    (res : WaldurResource) (backend_create : Except OrderExc String)
    (team_usernames : Finset String)
    (h0 : v.has_marketplace_resource_uuid = false)
    (hs : v.state = "executing")
    (hf : ∀ i, (fetch i).has_marketplace_resource_uuid = false
      ∧ (fetch i).state = "executing") :
    process_order_create fetch fetch2 v is_uuid res backend_create
      team_usernames = [] := by
  have htime : poll_order fetch (fun w => w.has_marketplace_resource_uuid) v 0
      = PollOutcome.timeout :=
    poll_order_timeout fetch _ hf (max_attempts + 1) 0 v (by omega) h0 hs
  simp [process_order_create, process_create_order, htime]

/-- Witness for C4 at a concrete stuck order: the refreshed order never
carries a resource id and stays executing, and no call is issued. -/
theorem create_order_timeout_leaves_order_untouched_witness :
    process_order_create (fun _ => ⟨false, "executing", "Marketplace.Slurm", false⟩)
      (fun _ => ⟨false, "executing", "Marketplace.Slurm", false⟩)
      ⟨false, "executing", "Marketplace.Slurm", false⟩
      (fun _ => true) ⟨"r-1", "alloc", "Creating", "Marketplace.Slurm"⟩
      (Except.ok "b-123") ∅ = [] :=
  create_order_timeout_leaves_order_untouched _ _ _ _ _ _ _
    rfl rfl (fun _ => ⟨rfl, rfl⟩)

/-- Python strings handled by the accounting client's output parser are
embedded as character lists. -/
abbrev PyStr := List Char

/-- Errors arising in the accounting client: `BackendError` raised by
`_execute_command` on a failed subprocess, Python's `IndexError` from
indexing past the end of a split line, and Python's `TypeError` from a call
with the wrong number of positional arguments. -/
inductive ClientError
  | backendError (command output : String)
  | indexError (idx : Nat)
  | typeError (msg : String)
deriving DecidableEq, Repr

/-- Embeds Python's `line.split("|")`. -/
def splitOnPipe : PyStr → List PyStr
  | [] => [[]]
  | c :: rest =>
    match splitOnPipe rest with
    | [] => [[]]
    | s :: ss => if c = '|' then [] :: s :: ss else (c :: s) :: ss

/-- Association record parsed by the client (`structures.Association`):
account, user and the `cpu=<n>` value of the tenth field. -/
structure Association where
  account : PyStr
  user : PyStr
  value : Nat
deriving DecidableEq, Repr

/-- Embeds `re.match(r"cpu=(\d+)", value)` of `_parse_association`: the
leading digit run after a `cpu=` head, or 0 when there is no match. -/
def parse_cpu_value (value : PyStr) : Nat :=
  if value.take 4 = ['c', 'p', 'u', '='] then
    let digits := (value.drop 4).takeWhile Char.isDigit
    if digits.isEmpty then 0
    else digits.foldl (fun n c => n * 10 + (c.toNat - 48)) 0
  else 0

/-- Embeds `SlurmClient._parse_association` (client.py): `parts[9]` is read
first (Python raises `IndexError` when the line has fewer than 10 fields),
then `parts[1]` and `parts[2]`. -/
def parse_association (line : PyStr) : Except ClientError Association :=
  let parts := splitOnPipe line
  match parts.get? 9 with
  | none => .error (.indexError 9)
  | some value =>
    match parts.get? 1, parts.get? 2 with
    | some account, some user =>
      .ok { account := account, user := user, value := parse_cpu_value value }
    | _, _ => .error (.indexError 1)

/-- Account record parsed by the client (`structures.Account`). -/
structure Account where
  name : PyStr
  description : PyStr
  organization : PyStr
deriving DecidableEq, Repr

/-- Embeds `SlurmClient._parse_account` (client.py): positional reads of
`parts[0]`, `parts[1]`, `parts[2]`, each raising `IndexError` when absent. -/
def parse_account (line : PyStr) : Except ClientError Account :=
  let parts := splitOnPipe line
  match parts.get? 0 with
  | none => .error (.indexError 0)
  | some name =>
    match parts.get? 1 with
    | none => .error (.indexError 1)
    | some description =>
      match parts.get? 2 with
      | none => .error (.indexError 2)
      | some organization =>
        .ok { name := name, description := description,
              organization := organization }

/-- Counterexample to C7 as stated: an association line with a pipe but only
three fields makes `_parse_association` fail with an uncaught `IndexError`
for index 9 — not with a `BackendError` carrying command and output. -/
theorem parse_association_short_line_counterexample :
    parse_association ("acctrow|acc1|user1".toList)
      = Except.error (ClientError.indexError 9) := by
  rfl

/-- C7 (amended): an accounting-output line with fewer than the 10 expected
positional fields makes `_parse_association` raise an uncaught `IndexError`
at index 9 (Python's out-of-range indexing), not a `BackendError`. -/
theorem parse_association_short_line_index_error (line : PyStr)
    (h : (splitOnPipe line).length < 10) :
    parse_association line = Except.error (ClientError.indexError 9) := by
  have h9 : (splitOnPipe line)[9]? = none :=
    List.getElem?_eq_none (by omega)
  simp [parse_association, h9]

/-- Witness for C7 at a concrete two-field line. -/
theorem parse_association_short_line_index_error_witness :
    (splitOnPipe ("hpc_a|alice".toList)).length < 10
      ∧ parse_association ("hpc_a|alice".toList)
        = Except.error (ClientError.indexError 9) :=
  ⟨by decide, parse_association_short_line_index_error _ (by decide)⟩

/-- Embeds `SlurmClient.list_account_users` (client.py), the command output
given as its list of lines: keep lines that contain the pipe delimiter and do
not end with a pipe, and take the second `split("|")` field of each. -/
def list_account_users (output_lines : List PyStr) : List PyStr :=
  (output_lines.filter
      (fun line => line.contains '|' && line.getLastD ' ' != '|')).map
    (fun line => (splitOnPipe line).getD 1 [])

/-- Shape of one output line of `list associations format=account,user`:
either a non-data banner without the delimiter, or an association row
rendered as `account|user`. -/
inductive OutLine
  | banner (s : PyStr)
  | row (account user : PyStr)
deriving DecidableEq, Repr

/-- Text of an output line. -/
def renderLine : OutLine → PyStr
  | .banner s => s
  | .row account user => account ++ '|' :: user

/-- Well-formedness of an output line: banners carry no delimiter and row
fields are delimiter-free. -/
def lineWF : OutLine → Prop
  | .banner s => '|' ∉ s
  | .row account user => '|' ∉ account ∧ '|' ∉ user

instance lineWF_decidable : (l : OutLine) → Decidable (lineWF l)
  | .banner s => inferInstanceAs (Decidable ('|' ∉ s))
  | .row account user =>
    inferInstanceAs (Decidable ('|' ∉ account ∧ '|' ∉ user))

theorem contains_char_iff (l : PyStr) (c : Char) :
    l.contains c = true ↔ c ∈ l :=
  List.elem_iff

theorem getLastD_mem (u : PyStr) (c : Char) (h : u ≠ []) :
    u.getLastD c ∈ u := by
  induction u generalizing c with
  | nil => exact absurd rfl h
  | cons x u ih =>
    rw [List.getLastD_cons]
    rcases eq_or_ne u [] with rfl | hu
    · simp [List.getLastD]
    · exact List.mem_cons_of_mem _ (ih x hu)

theorem getLastD_append_cons (a u : PyStr) (c d : Char) :
    (a ++ c :: u).getLastD d = u.getLastD c := by
  induction a generalizing d with
  | nil => exact List.getLastD_cons ..
  | cons x a ih =>
    rw [List.cons_append, List.getLastD_cons]
    exact ih x

theorem splitOnPipe_ne_nil (s : PyStr) : splitOnPipe s ≠ [] := by
  cases s with
  | nil => simp [splitOnPipe]
  | cons c rest =>
    simp only [splitOnPipe]
    rcases h : splitOnPipe rest with _ | ⟨x, xs⟩
    · simp
    · by_cases hc : c = '|' <;> simp [hc]

theorem splitOnPipe_no_pipe (s : PyStr) (h : '|' ∉ s) :
    splitOnPipe s = [s] := by
  induction s with
  | nil => rfl
  | cons c rest ih =>
    simp only [List.mem_cons, not_or] at h
    have hc : ¬ c = '|' := fun he => h.1 he.symm
    simp only [splitOnPipe, ih h.2, if_neg hc]

theorem splitOnPipe_append (a u : PyStr) (h : '|' ∉ a) :
    splitOnPipe (a ++ '|' :: u) = a :: splitOnPipe u := by
  induction a with
  | nil =>
    simp only [List.nil_append, splitOnPipe]
    rcases hs : splitOnPipe u with _ | ⟨x, xs⟩
    · exact absurd hs (splitOnPipe_ne_nil u)
    · simp
  | cons x a ih =>
    simp only [List.mem_cons, not_or] at h
    have hx : ¬ x = '|' := fun he => h.1 he.symm
    have hstep : splitOnPipe ((x :: a) ++ '|' :: u)
        = match splitOnPipe (a ++ '|' :: u) with
          | [] => [[]]
          | s :: ss => if x = '|' then [] :: s :: ss else (x :: s) :: ss := rfl
    rw [hstep, ih h.2]
    simp [hx]

theorem list_account_users_cons (line : PyStr) (rest : List PyStr) :
    list_account_users (line :: rest)
      = if line.contains '|' && line.getLastD ' ' != '|' then
          ((splitOnPipe line).getD 1 []) :: list_account_users rest
        else list_account_users rest := by
  simp only [list_account_users, List.filter_cons]
  rcases hp : (line.contains '|' && line.getLastD ' ' != '|') with _ | _
  · simp
  · simp

/-- C10: for well-formed `account|user` output, `list_account_users` returns
exactly the user fields of the rows whose user is non-empty — account-only
association rows (which render with a trailing pipe) are dropped, so the
returned grantee list never contains the empty username. -/
theorem list_account_users_excludes_empty_usernames (ls : List OutLine)
    (h : ∀ l ∈ ls, lineWF l) :
    list_account_users (ls.map renderLine)
        = ls.filterMap (fun l => match l with
            | OutLine.row _ user => if user = [] then none else some user
            | OutLine.banner _ => none)
      ∧ [] ∉ list_account_users (ls.map renderLine) := by
  have hmain : list_account_users (ls.map renderLine)
      = ls.filterMap (fun l => match l with
          | OutLine.row _ user => if user = [] then none else some user
          | OutLine.banner _ => none) := by
    induction ls with
    | nil => rfl
    | cons l ls ih =>
      have hl := h l (List.mem_cons_self _ _)
      have hrest := ih (fun x hx => h x (List.mem_cons_of_mem _ hx))
      rw [List.map_cons, list_account_users_cons, List.filterMap_cons]
      cases l with
      | banner s =>
        have hcont : (renderLine (OutLine.banner s)).contains '|' = false := by
          rw [Bool.eq_false_iff]
          intro hc
          exact hl ((contains_char_iff s '|').mp hc)
        rw [hcont]
        simpa using hrest
      | row account user =>
        obtain ⟨ha, hu⟩ := hl
        have hcont : (renderLine (OutLine.row account user)).contains '|'
            = true :=
          (contains_char_iff _ '|').mpr (by simp [renderLine])
        rcases eq_or_ne user [] with rfl | hune
        · have hlast : (renderLine
              (OutLine.row account [])).getLastD ' ' = '|' := by
            simp only [renderLine]
            rw [getLastD_append_cons]
            rfl
          rw [hcont, hlast]
          simpa using hrest
        · have hlast : (renderLine
              (OutLine.row account user)).getLastD ' ' ≠ '|' := by
            simp only [renderLine]
            rw [getLastD_append_cons]
            intro he
            exact hu (he ▸ getLastD_mem user '|' hune)
          have hsplit : splitOnPipe (renderLine (OutLine.row account user))
              = [account, user] := by
            simp only [renderLine]
            rw [splitOnPipe_append _ _ ha, splitOnPipe_no_pipe _ hu]
          rw [hcont, hsplit]
          simp only [bne_iff_ne, ne_eq, hlast, not_false_eq_true,
            Bool.true_and, if_true, if_neg hune]
          rw [hrest]
          rfl
  refine ⟨hmain, ?_⟩
  rw [hmain]
  intro hmem
  obtain ⟨l, hl, hsome⟩ := List.mem_filterMap.mp hmem
  cases l with
  | banner s => simp at hsome
  | row account user =>
    rcases eq_or_ne user [] with rfl | hune
    · simp at hsome
    · simp only [if_neg hune, Option.some.injEq] at hsome
      exact hune hsome

/-- Witness for C10 at a concrete output: one banner, one user row and one
account-only row. -/
theorem list_account_users_excludes_empty_usernames_witness :
    list_account_users
        ([OutLine.banner ("Cluster accounts".toList),
          OutLine.row ("hpc_a".toList) ("alice".toList),
          OutLine.row ("hpc_a".toList) []].map renderLine)
        = [OutLine.banner ("Cluster accounts".toList),
           OutLine.row ("hpc_a".toList) ("alice".toList),
           OutLine.row ("hpc_a".toList) []].filterMap
            (fun l => match l with
              | OutLine.row _ user => if user = [] then none else some user
              | OutLine.banner _ => none)
      ∧ [] ∉ list_account_users
          ([OutLine.banner ("Cluster accounts".toList),
            OutLine.row ("hpc_a".toList) ("alice".toList),
            OutLine.row ("hpc_a".toList) []].map renderLine) :=
  list_account_users_excludes_empty_usernames
    [OutLine.banner ("Cluster accounts".toList),
     OutLine.row ("hpc_a".toList) ("alice".toList),
     OutLine.row ("hpc_a".toList) []] (by decide)

/-- Commands issued by the client during `delete_account` (client.py). -/
inductive SlurmCmd
  | showAssociations (account : PyStr)
  | removeUsersFromAccount (account : PyStr)
  | removeAccount (account : PyStr)
deriving DecidableEq, Repr

/-- Embeds `SlurmClient.account_has_users` (client.py); the accounting
subsystem's response to `show association where account=X` is modelled as the
associations of the cluster state whose account is `X`.  True when any of
them carries a non-empty user. -/
def account_has_users (cluster : List Association) (account : PyStr) : Bool :=
  (cluster.filter (fun a => a.account == account)).any
    (fun a => a.user != [])

/-- Embeds `SlurmClient.delete_account` (client.py) as the command trace it
issues: the association query of `account_has_users`, then — only when user
associations exist — `delete_all_users_from_account`, then the account
removal. -/
def delete_account_cmds (cluster : List Association) (account : PyStr) :
    List SlurmCmd :=
  [SlurmCmd.showAssociations account]
    ++ (if account_has_users cluster account then
        [SlurmCmd.removeUsersFromAccount account]
      else [])
    ++ [SlurmCmd.removeAccount account]

/-- Effect of one command on the cluster's association state: the query
changes nothing; `remove user where account=X` drops the account's user
associations; `remove account where name=X` drops all of the account's
associations. -/
def apply_cmd (cluster : List Association) : SlurmCmd → List Association
  | .showAssociations _ => cluster
  | .removeUsersFromAccount account =>
    cluster.filter (fun a => !(a.account == account && a.user != []))
  | .removeAccount account => cluster.filter (fun a => a.account != account)

/-- Runs a command sequence from a cluster state. -/
def apply_cmds (cluster : List Association) (cmds : List SlurmCmd) :
    List Association :=
  cmds.foldl apply_cmd cluster

/-- C8: deleting an account never issues the account-removal command while
user associations remain: when the account has an association with a
non-empty user, the user-association removal precedes the account removal
and at the moment the account removal is issued the account has no user
associations left; when it has none, the account removal is issued directly
(and trivially with no user associations present). -/
theorem delete_account_users_removed_first (cluster : List Association)
    (account : PyStr) :
    (account_has_users cluster account = true →
      delete_account_cmds cluster account
          = [SlurmCmd.showAssociations account,
             SlurmCmd.removeUsersFromAccount account,
             SlurmCmd.removeAccount account]
        ∧ account_has_users
            (apply_cmds cluster
              [SlurmCmd.showAssociations account,
               SlurmCmd.removeUsersFromAccount account]) account = false)
    ∧ (account_has_users cluster account = false →
      delete_account_cmds cluster account
          = [SlurmCmd.showAssociations account,
             SlurmCmd.removeAccount account]) := by
  constructor
  · intro hhas
    refine ⟨by simp [delete_account_cmds, hhas], ?_⟩
    simp only [apply_cmds, List.foldl_cons, List.foldl_nil, apply_cmd]
    rw [Bool.eq_false_iff]
    intro hany
    rw [account_has_users, List.any_eq_true] at hany
    obtain ⟨a, hmem, huser⟩ := hany
    rw [List.mem_filter] at hmem
    obtain ⟨hmem2, hacct⟩ := hmem
    rw [List.mem_filter] at hmem2
    obtain ⟨_, hskip⟩ := hmem2
    rw [hacct, huser] at hskip
    simp at hskip
  · intro hno
    simp [delete_account_cmds, hno]

/-- Witness for C8 at a concrete state: one user association on the account;
the removal trace drops it before the account removal. -/
theorem delete_account_users_removed_first_witness :
    delete_account_cmds [⟨"hpc_a".toList, "alice".toList, 0⟩] ("hpc_a".toList)
        = [SlurmCmd.showAssociations ("hpc_a".toList),
           SlurmCmd.removeUsersFromAccount ("hpc_a".toList),
           SlurmCmd.removeAccount ("hpc_a".toList)]
      ∧ account_has_users
          (apply_cmds [⟨"hpc_a".toList, "alice".toList, 0⟩]
            [SlurmCmd.showAssociations ("hpc_a".toList),
             SlurmCmd.removeUsersFromAccount ("hpc_a".toList)])
          ("hpc_a".toList) = false :=
  (delete_account_users_removed_first
    [⟨"hpc_a".toList, "alice".toList, 0⟩] ("hpc_a".toList)).1 (by decide)

/-- Embeds `SlurmClient.create_linux_user_homedir` (client.py) with Python's
positional-argument checking made explicit: the method's signature accepts
exactly one positional argument (`username`); a call with any other arity
raises `TypeError` before the body runs.  `exec_cmd` abstracts the
subprocess execution performed by `_execute_command`. -/
def create_linux_user_homedir
    (exec_cmd : List String → Except ClientError String)
    (args : List String) : Except ClientError String :=
  match args with
  | [username] => exec_cmd ["/sbin/mkhomedir_helper", username]
  | _ => .error (.typeError
      "create_linux_user_homedir() takes 2 positional arguments but 3 were given")

/-- Embeds `SlurmBackend._create_user_homedirs` (backend.py): iterates the
usernames, calling `self.client.create_linux_user_homedir(username, umask)`
— two positional arguments — and catching only `BackendError` per user. -/
def create_user_homedirs (exec_cmd : List String → Except ClientError String)
    (usernames : List String) (umask : String) : Except ClientError Unit :=
  match usernames with
  | [] => .ok ()
  | u :: rest =>
    match create_linux_user_homedir exec_cmd [u, umask] with
    | .ok _ => create_user_homedirs exec_cmd rest umask
    | .error (.backendError _ _) => create_user_homedirs exec_cmd rest umask
    | .error e => .error e

/-- Modelled from the spec: `BaseBackend.add_users_to_resource` (its defining
module `waldur_site_agent/backends/backend.py` is not among the sources)
creates associations only for usernames not yet granted and returns that set
difference. -/
def base_add_users_to_resource (current_grants user_ids : List String) :
    List String :=
  user_ids.filter (fun u => u ∉ current_grants)

/-- Embeds `SlurmBackend.add_users_to_resource` (backend.py): the base
set-difference addition, then — when `enable_user_homedir_account_creation`
is set — homedir provisioning for the newly added users, and on success the
added usernames are returned. -/
def slurm_add_users_to_resource
    (exec_cmd : List String → Except ClientError String)
    (homedir_enabled : Bool) (current_grants user_ids : List String)
    (umask : String) : Except ClientError (List String) :=
  let added := base_add_users_to_resource current_grants user_ids
  if homedir_enabled then
    match create_user_homedirs exec_cmd added umask with
    | .ok _ => .ok added
    | .error e => .error e
  else .ok added

/-- C9 (code bug): with home-directory creation enabled and at least one
newly added user, `add_users_to_resource` always fails with a `TypeError`
regardless of the subprocess outcome — `_create_user_homedirs` (backend.py)
calls `create_linux_user_homedir(username, umask)` while the client's
signature (client.py) takes only `username`, and the resulting `TypeError`
is not caught by the `except BackendError` handler — so no added-username
set is returned, contradicting the claim that per-user provisioning failures
are tolerated. -/
theorem add_users_homedir_type_error
    (exec_cmd : List String → Except ClientError String) :
    slurm_add_users_to_resource exec_cmd true [] ["alice"] "0700"
      = Except.error (ClientError.typeError
        "create_linux_user_homedir() takes 2 positional arguments but 3 were given") :=
  rfl

/-- Witness for C1 at the spec's scenario 4: local grants `{alice, bob}`,
team `{u1, u2}`, offering users carol (u2, on team) and bob (u3, off team):
additions `{carol}`, removals contain `bob`. -/
theorem membership_sync_sets_amended_witness :
    (sync_slurm_resource_users false [⟨"carol", "u2"⟩, ⟨"bob", "u3"⟩]
          {"alice", "bob"} {"u1", "u2"}).1
        = offering_usernames_on_team [⟨"carol", "u2"⟩, ⟨"bob", "u3"⟩]
            {"u1", "u2"} \ {"alice", "bob"}
      ∧ ∀ x, x ∈ (sync_slurm_resource_users false [⟨"carol", "u2"⟩, ⟨"bob", "u3"⟩]
            {"alice", "bob"} {"u1", "u2"}).2
          ↔ x ∈ ({"alice", "bob"} : Finset String)
            ∧ ∃ u ∈ [(⟨"carol", "u2"⟩ : OfferingUser), ⟨"bob", "u3"⟩],
                u.username = x ∧ u.user_uuid ∉ ({"u1", "u2"} : Finset String) :=
  (membership_sync_sets_amended false [⟨"carol", "u2"⟩, ⟨"bob", "u3"⟩]
    {"alice", "bob"} {"u1", "u2"}).1 rfl

/-- Witness for C6 at a concrete empty-limits update order. -/
theorem empty_update_limits_amended_witness :
    Call.markDone ∈ process_order_update true "acct-1" []
      ∧ Call.setLimits "acct-1" [] ∈ process_update_order_legacy true "acct-1" [] :=
  ⟨(empty_update_limits_amended true "acct-1").2.1,
   (empty_update_limits_amended true "acct-1").2.2.2⟩
